import Mathlib

/-!
Verification of the frame-acquisition bridge in `src/gstreamer_source.py`
(`GStreamerFileSource`): the pixel unpacker in `_on_new_sample`, the bounded
frame queue built on `queue.Queue`, and the lifecycle controller
(`start`/`stop`/bus handlers/`done`).

Byte buffers are modelled as `List Nat`; machine behaviour of numpy slicing
is pure byte-level copying, so lists are a faithful model.
-/

namespace GStreamerSource

/-- The `Gst.FlowReturn` values produced by `_on_new_sample`. -/
inductive Flow
  | ok
  | error
deriving DecidableEq

/-- A raw sample delivered by the appsink callback: caps width/height, the
video-meta stride when present (`GstVideo.buffer_get_video_meta` returning
non-`None`), and the mapped buffer bytes. -/
structure RawSample where
  width : Nat
  height : Nat
  metaStride : Option Nat
  data : List Nat
deriving DecidableEq

/-- The unpacking core of `_on_new_sample` (lines 110-138): check
`data.size < row_stride * height`, reshape the first `expected_size` bytes to
`(height, row_stride)`, reject when `width*3 > row_stride`, otherwise keep the
first `width*3` bytes of each row and flatten to the packed frame. -/
def unpackSample (width height row_stride : Nat) (data : List Nat) :
    Option (List Nat) :=
  let expected_size := row_stride * height
  if data.length < expected_size then
    none
  else
    let frame_padded := data.take expected_size
    let valid_row_bytes := width * 3
    if valid_row_bytes > row_stride then
      none
    else
      some (((List.range height).map
        (fun r => ((frame_padded.drop (r * row_stride)).take valid_row_bytes))).flatten)

/-- Stride selection of `_on_new_sample` (lines 93-102): the video meta's
plane-0 stride when available, otherwise the fallback
`row_stride = tmp_map.size // height`. -/
def effectiveStride (s : RawSample) : Nat :=
  match s.metaStride with
  | some v => v
  | none => s.data.length / s.height

/-- `queue.Queue(maxsize).put_nowait`: raises `Full` (here: second component
`true`, frame dropped) iff `maxsize > 0` and the queue already holds at least
`maxsize` items; otherwise appends the frame at the back. -/
def tryPush {α : Type} (maxsize : Nat) (q : List α) (f : α) : List α × Bool :=
  if 0 < maxsize ∧ maxsize ≤ q.length then
    (q, true)
  else
    (q ++ [f], false)

/-- Pushing a whole list of frames through `tryPush` with no intervening pops
(the producer-only workload of `_on_new_sample`). -/
def pushAll {α : Type} (maxsize : Nat) (q : List α) (fs : List α) : List α :=
  fs.foldl (fun acc f => (Prod.fst (tryPush maxsize acc f))) q

/-- The queue effect of one `_on_new_sample` invocation: unpack the sample with
the effective stride; on failure return `Gst.FlowReturn.ERROR` leaving the
queue untouched, on success `put_nowait` the frame (dropping it when full) and
return `Gst.FlowReturn.OK`. -/
def onNewSample (maxsize : Nat) (q : List (List Nat)) (s : RawSample) :
    List (List Nat) × Flow :=
  match unpackSample s.width s.height (effectiveStride s) s.data with
  | none => (q, Flow.error)
  | some f => ((tryPush maxsize q f).1, Flow.ok)

/- ### Helper lemmas about the unpacker -/

/-- A row slice taken from the truncated buffer `data[:stride*height]` equals
the slice taken from the full buffer, for in-range rows. -/
lemma row_of_take (data : List Nat) (s h w3 r : Nat) (hr : r < h) (hw : w3 ≤ s) :
    ((data.take (s * h)).drop (r * s)).take w3 = (data.drop (r * s)).take w3 := by
  rw [List.drop_take, List.take_take]
  congr 1
  have hrs : w3 + r * s ≤ s * h := by
    calc w3 + r * s ≤ s + r * s := Nat.add_le_add_right hw _
    _ = s * (r + 1) := by ring
    _ ≤ s * h := Nat.mul_le_mul_left s hr
  exact Nat.min_eq_left (Nat.le_sub_of_add_le hrs)

/-- On success the unpacker returns exactly the per-row `width*3`-byte slices
of the source buffer, concatenated. -/
lemma unpackSample_eq_rows (w h s : Nat) (data : List Nat)
    (hlen : s * h ≤ data.length) (hw : w * 3 ≤ s) :
    unpackSample w h s data =
      some (((List.range h).map (fun r => (data.drop (r * s)).take (w * 3))).flatten) := by
  unfold unpackSample
  simp only [not_lt.mpr hlen, if_false, gt_iff_lt, not_lt.mpr hw]
  congr 2
  apply List.map_congr_left
  intro r hr
  exact row_of_take data s h (w * 3) r (List.mem_range.mp hr) hw

/-- Each extracted row has exactly `w*3` bytes when the buffer is long enough. -/
lemma row_length (data : List Nat) (s h w3 r : Nat) (hr : r < h) (hw : w3 ≤ s)
    (hlen : s * h ≤ data.length) :
    ((data.drop (r * s)).take w3).length = w3 := by
  rw [List.length_take, List.length_drop]
  have : w3 + r * s ≤ s * h := by
    calc w3 + r * s ≤ s + r * s := Nat.add_le_add_right hw _
    _ = s * (r + 1) := by ring
    _ ≤ s * h := Nat.mul_le_mul_left s hr
  omega

/-- Extracting row `i` from the flattened frame, when all rows have length
`k`, recovers the `i`-th row. -/
lemma flatten_row (k : Nat) (l : List (List Nat)) (hk : ∀ x ∈ l, x.length = k) :
    ∀ i, i < l.length → (l.flatten.drop (i * k)).take k = l.getD i [] := by
  induction l with
  | nil =>
    intro i hi
    simp at hi
  | cons a t ih =>
    intro i hi
    have ha : a.length = k := hk a (List.mem_cons_self a t)
    cases i with
    | zero =>
      simp only [Nat.zero_mul, List.drop_zero, List.flatten_cons, List.getD_cons_zero]
      rw [← ha, List.take_left]
    | succ j =>
      have hsplit : (j + 1) * k = a.length + j * k := by rw [ha]; ring
      rw [List.flatten_cons, hsplit, ← List.drop_drop, List.drop_left,
        List.getD_cons_succ]
      exact ih (fun x hx => hk x (List.mem_cons_of_mem a hx)) j
        (by simpa using Nat.lt_of_succ_lt_succ hi)

/-- Concatenating full-stride rows reconstructs the buffer prefix. -/
lemma rows_flatten_exact (s : Nat) :
    ∀ (n : Nat) (d : List Nat), s * n ≤ d.length →
      ((List.range n).map (fun r => (d.drop (r * s)).take s)).flatten = d.take (s * n) := by
  intro n
  induction n with
  | zero =>
    intro d _
    simp
  | succ m ih =>
    intro d hlen
    have hm : s * m ≤ d.length := by
      have : s * m ≤ s * (m + 1) := Nat.mul_le_mul_left s (Nat.le_succ m)
      omega
    rw [List.range_succ, List.map_append, List.flatten_append, ih d hm]
    have hadd : s * (m + 1) = s * m + s := by ring
    rw [hadd, List.take_add]
    simp [Nat.mul_comm]

end GStreamerSource

namespace GStreamerSource

/-- C1: for a sample whose buffer holds at least `stride*height` bytes with
`stride > width*3`, unpacking succeeds with a frame of `height * width*3`
bytes whose row `r` is exactly the first `width*3` bytes of source row `r`
(the trailing `stride - width*3` padding bytes are discarded), and the result
only depends on the first `stride*height` bytes of the source. -/
theorem unpack_padded_preserves_rows (w h s : Nat) (data : List Nat)
    (hlen : s * h ≤ data.length) (hs : w * 3 < s) :
    ∃ frame, unpackSample w h s data = some frame ∧
      frame.length = h * (w * 3) ∧
      (∀ r, r < h →
        (frame.drop (r * (w * 3))).take (w * 3) = (data.drop (r * s)).take (w * 3)) ∧
      unpackSample w h s data = unpackSample w h s (data.take (s * h)) := by
  have hw : w * 3 ≤ s := Nat.le_of_lt hs
  have hrows := unpackSample_eq_rows w h s data hlen hw
  refine ⟨_, hrows, ?_, ?_, ?_⟩
  · rw [List.length_flatten, List.map_map]
    have : (List.map (List.length ∘ fun r => (data.drop (r * s)).take (w * 3))
        (List.range h)) = List.replicate h (w * 3) := by
      rw [List.eq_replicate_iff]
      refine ⟨by simp, ?_⟩
      intro b hb
      simp only [List.mem_map, List.mem_range, Function.comp] at hb
      obtain ⟨r, hr, hb⟩ := hb
      rw [← hb]
      exact row_length data s h (w * 3) r hr hw hlen
    rw [this, List.sum_replicate, smul_eq_mul]
  · intro r hr
    have hk : ∀ x ∈ (List.range h).map (fun r => (data.drop (r * s)).take (w * 3)),
        x.length = w * 3 := by
      intro x hx
      simp only [List.mem_map, List.mem_range] at hx
      obtain ⟨j, hj, hx⟩ := hx
      rw [← hx]
      exact row_length data s h (w * 3) j hj hw hlen
    have hext := flatten_row (w * 3) _ hk r (by simpa using hr)
    rw [hext]
    have hlt : r < ((List.range h).map
        (fun r => (data.drop (r * s)).take (w * 3))).length := by simpa using hr
    rw [List.getD_eq_getElem _ _ hlt]
    simp
  · have hlen2 : s * h ≤ (data.take (s * h)).length := by
      rw [List.length_take]
      omega
    rw [hrows, unpackSample_eq_rows w h s (data.take (s * h)) hlen2 hw]
    congr 2
    apply List.map_congr_left
    intro r hr
    exact (row_of_take data s h (w * 3) r (List.mem_range.mp hr) hw).symm

/-- Witness for C1 at the spec's end-to-end numbers `width=4, height=2,
stride=16`: hypotheses hold and the conclusion evaluates. -/
theorem unpack_padded_preserves_rows_witness :
    ∃ frame, unpackSample 4 2 16 (List.range 32) = some frame ∧
      frame.length = 2 * (4 * 3) ∧
      (∀ r, r < 2 →
        (frame.drop (r * (4 * 3))).take (4 * 3) =
          ((List.range 32).drop (r * 16)).take (4 * 3)) ∧
      unpackSample 4 2 16 (List.range 32) =
        unpackSample 4 2 16 ((List.range 32).take (16 * 2)) :=
  unpack_padded_preserves_rows 4 2 16 (List.range 32) (by simp) (by norm_num)

/-- C2: with `stride == width*3` and a buffer of at least `stride*height`
bytes, the unpacked frame is byte-identical to the first `stride*height`
bytes of the raw buffer. -/
theorem unpack_exact_stride (w h : Nat) (data : List Nat)
    (hlen : (w * 3) * h ≤ data.length) :
    unpackSample w h (w * 3) data = some (data.take ((w * 3) * h)) := by
  rw [unpackSample_eq_rows w h (w * 3) data hlen (Nat.le_refl _)]
  rw [rows_flatten_exact (w * 3) h data hlen]

/-- Witness for C2: `width=2, height=2, stride=6` on a 13-byte buffer. -/
theorem unpack_exact_stride_witness :
    unpackSample 2 2 (2 * 3) (List.range 13) = some ((List.range 13).take ((2 * 3) * 2)) :=
  unpack_exact_stride 2 2 (List.range 13) (by simp)

/-- C3: when `width*3 > stride` or the buffer is shorter than
`stride*height`, unpacking returns `none` and the `_on_new_sample` step
returns `Gst.FlowReturn.ERROR` with the queue unchanged — the failure is
absorbed locally and nothing reaches the consumer. -/
theorem unpack_rejects_inconsistent (w h s : Nat) (data : List Nat)
    (hbad : s < w * 3 ∨ data.length < s * h) :
    unpackSample w h s data = none ∧
      ∀ (maxsize : Nat) (q : List (List Nat)),
        onNewSample maxsize q ⟨w, h, some s, data⟩ = (q, Flow.error) := by
  have hnone : unpackSample w h s data = none := by
    unfold unpackSample
    by_cases hshort : data.length < s * h
    · rw [if_pos hshort]
    · rcases hbad with hlt | hlt
      · rw [if_neg hshort, if_pos (by omega)]
      · exact absurd hlt hshort
  refine ⟨hnone, ?_⟩
  intro maxsize q
  unfold onNewSample
  have hst : effectiveStride ⟨w, h, some s, data⟩ = s := rfl
  simp only [hst, hnone]

/-- Witness for C3: `width=2, height=1, stride=3` (so `width*3 = 6 > 3`). -/
theorem unpack_rejects_inconsistent_witness :
    unpackSample 2 1 3 [0, 0, 0] = none ∧
      ∀ (maxsize : Nat) (q : List (List Nat)),
        onNewSample maxsize q ⟨2, 1, some 3, [0, 0, 0]⟩ = (q, Flow.error) :=
  unpack_rejects_inconsistent 2 1 3 [0, 0, 0] (Or.inl (by norm_num))

/- ### Queue trace model

The producer side is `put_nowait` inside `_on_new_sample` (lines 140-144) and
the consumer side is `self._queue.get()` in `get_frame_blocking` (line 157).
Frames are tracked as `Nat` tags; `QLog` records, alongside the queue buffer,
the full history of offered, popped and dropped frames. -/

/-- One interleaving step at the queue: a producer `put_nowait` or a consumer
`get` that found the queue non-empty (an empty queue makes `get` block, so no
state change is observed until a frame arrives). -/
inductive QOp
  | push (f : Nat)
  | pop
deriving DecidableEq

/-- Queue state plus history of every frame offered, popped and dropped. -/
structure QLog where
  buf : List Nat
  pushed : List Nat
  popped : List Nat
  dropped : List Nat
deriving DecidableEq

/-- Effect of one queue operation on the logged state. -/
def qstep (maxsize : Nat) (st : QLog) : QOp → QLog
  | QOp.push f =>
    let r := tryPush maxsize st.buf f
    { st with
      buf := r.1
      pushed := st.pushed ++ [f]
      dropped := if r.2 then st.dropped ++ [f] else st.dropped }
  | QOp.pop =>
    match st.buf with
    | [] => st
    | f :: rest => { st with buf := rest, popped := st.popped ++ [f] }

/-- Run a whole interleaving from the empty queue. -/
def runQ (maxsize : Nat) (ops : List QOp) : QLog :=
  ops.foldl (qstep maxsize) ⟨[], [], [], []⟩

/-- The FIFO invariant: the popped history followed by the current buffer is a
sublist of the offered history, and is all of it when nothing was dropped. -/
def qinv (st : QLog) : Prop :=
  (st.popped ++ st.buf).Sublist st.pushed ∧
    (st.dropped = [] → st.popped ++ st.buf = st.pushed)

/-- `qinv` is preserved by every queue step. -/
lemma qinv_step (maxsize : Nat) (st : QLog) (op : QOp) (h : qinv st) :
    qinv (qstep maxsize st op) := by
  obtain ⟨hsub, heq⟩ := h
  cases op with
  | push f =>
    by_cases hfull : 0 < maxsize ∧ maxsize ≤ st.buf.length
    · simp only [qinv, qstep, tryPush, hfull, if_true]
      constructor
      · exact hsub.trans (List.sublist_append_left st.pushed [f])
      · intro hd
        simp at hd
    · simp only [qinv, qstep, tryPush, hfull, if_false]
      constructor
      · rw [← List.append_assoc]
        exact hsub.append (List.Sublist.refl [f])
      · intro hd
        rw [← List.append_assoc, heq hd]
  | pop =>
    cases hbuf : st.buf with
    | nil =>
      simp only [qinv, qstep, hbuf]
      rw [hbuf] at hsub heq
      exact ⟨by simpa using hsub, fun hd => by simpa using heq hd⟩
    | cons f rest =>
      simp only [qinv, qstep, hbuf]
      constructor
      · rw [List.append_assoc, List.singleton_append, ← hbuf]
        exact hsub
      · intro hd
        rw [List.append_assoc, List.singleton_append, ← hbuf]
        exact heq hd

/-- `qinv` holds after any run from the empty queue. -/
lemma qinv_runQ (maxsize : Nat) (ops : List QOp) : qinv (runQ maxsize ops) := by
  unfold runQ
  have hstart : qinv ⟨[], [], [], []⟩ := ⟨by simp, by simp⟩
  generalize hst : (⟨[], [], [], []⟩ : QLog) = st at hstart
  clear hst
  induction ops generalizing st with
  | nil => exact hstart
  | cons op rest ih => exact ih (qstep maxsize st op) (qinv_step maxsize st op hstart)

/-- Pushing with no pops: starting from a buffer within capacity, the final
buffer is a prefix of the offered frames capped at `maxsize`. -/
lemma pushAll_take (maxsize : Nat) (hpos : 0 < maxsize) :
    ∀ (fs q : List Nat), q.length ≤ maxsize →
      pushAll maxsize q fs = (q ++ fs).take maxsize := by
  intro fs
  induction fs with
  | nil =>
    intro q hq
    simp [pushAll, List.take_of_length_le hq]
  | cons f rest ih =>
    intro q hq
    unfold pushAll
    simp only [List.foldl_cons]
    by_cases hfull : maxsize ≤ q.length
    · have hlen : q.length = maxsize := Nat.le_antisymm hq hfull
      have hstep : (tryPush maxsize q f).1 = q := by
        unfold tryPush
        rw [if_pos ⟨hpos, hfull⟩]
      rw [hstep]
      have := ih q hq
      unfold pushAll at this
      rw [this]
      rw [← hlen, List.take_left, List.take_left]
    · have hstep : (tryPush maxsize q f).1 = q ++ [f] := by
        unfold tryPush
        rw [if_neg (by omega)]
      rw [hstep]
      have := ih (q ++ [f]) (by simp; omega)
      unfold pushAll at this
      rw [this]
      simp

end GStreamerSource

namespace GStreamerSource

/-- C4: with a positive fixed capacity, pushing any list of frames into the
empty queue with no pops retains exactly the oldest `capacity` frames, and a
`put_nowait` against a full queue discards the incoming frame while leaving
every previously enqueued frame in place. -/
theorem queue_drop_newest (maxsize : Nat) (fs : List Nat) (hpos : 0 < maxsize) :
    pushAll maxsize [] fs = fs.take maxsize ∧
      ∀ (q : List Nat) (f : Nat), maxsize ≤ q.length →
        tryPush maxsize q f = (q, true) := by
  constructor
  · have := pushAll_take maxsize hpos fs [] (by simp)
    simpa using this
  · intro q f hfull
    unfold tryPush
    rw [if_pos ⟨hpos, hfull⟩]

/-- Witness for C4, the spec's own example: capacity 2, pushing frames
1,2,3,4 leaves the queue holding exactly 1,2, and a push against the full
queue reports dropped. -/
theorem queue_drop_newest_witness :
    pushAll 2 [] [1, 2, 3, 4] = [1, 2] ∧ tryPush 2 [1, 2] 3 = ([1, 2], true) := by
  have h := queue_drop_newest 2 [1, 2, 3, 4] (by norm_num)
  exact ⟨by rw [h.1]; rfl, h.2 [1, 2] 3 (by norm_num)⟩

/-- C5: over every interleaving of pushes and pops, the popped frames form an
order-preserving, duplication-free sublist of the offered frames, and when no
frame was dropped the popped frames followed by the still-buffered frames are
exactly the offered frames in push order (FIFO). -/
theorem queue_fifo_subsequence (maxsize : Nat) (ops : List QOp) :
    (runQ maxsize ops).popped.Sublist (runQ maxsize ops).pushed ∧
      ((runQ maxsize ops).dropped = [] →
        (runQ maxsize ops).popped ++ (runQ maxsize ops).buf = (runQ maxsize ops).pushed) := by
  obtain ⟨hsub, heq⟩ := qinv_runQ maxsize ops
  exact ⟨(List.sublist_append_left _ _).trans hsub, heq⟩

/-- Witness for C5: pushes of 5,6,7 interleaved with pops on a capacity-2
queue drop nothing here, so the popped frames plus the buffer equal 5,6,7. -/
theorem queue_fifo_subsequence_witness :
    (runQ 2 [QOp.push 5, QOp.pop, QOp.push 6, QOp.push 7]).popped.Sublist
        (runQ 2 [QOp.push 5, QOp.pop, QOp.push 6, QOp.push 7]).pushed ∧
      (runQ 2 [QOp.push 5, QOp.pop, QOp.push 6, QOp.push 7]).popped ++
          (runQ 2 [QOp.push 5, QOp.pop, QOp.push 6, QOp.push 7]).buf =
        (runQ 2 [QOp.push 5, QOp.pop, QOp.push 6, QOp.push 7]).pushed := by
  have h := queue_fifo_subsequence 2 [QOp.push 5, QOp.pop, QOp.push 6, QOp.push 7]
  exact ⟨h.1, h.2 (by decide)⟩

/- ### Lifecycle model

`GStreamerFileSource` holds a pipeline (whose GStreamer state the class sets
to `PLAYING` in `start` and `NULL` in `stop`), a GLib main-loop thread, the
`_done` flag (line 30) and the frame queue. The bus handler (lines 69-81)
sets `_done` and calls `stop` on EOS and on ERROR. -/

/-- The pipeline states this class ever sets (`Gst.State.PLAYING` in `start`,
`Gst.State.NULL` at construction and in `stop`). -/
inductive PState
  | null
  | playing
deriving DecidableEq

/-- The mutable state of a `GStreamerFileSource` instance. -/
structure SrcState where
  pipeline : PState
  loopRunning : Bool
  done : Bool
  queue : List (List Nat)
  maxsize : Nat
deriving DecidableEq

/-- `__init__` (lines 25-51): empty queue with the given `queue_size`,
`_done = False`, pipeline not yet playing, loop thread not yet started. -/
def initState (queue_size : Nat) : SrcState :=
  { pipeline := PState.null, loopRunning := false, done := false,
    queue := [], maxsize := queue_size }

/-- `start` (lines 53-56): set the pipeline to PLAYING and start the loop. -/
def startStep (st : SrcState) : SrcState :=
  { st with pipeline := PState.playing, loopRunning := true }

/-- `stop` (lines 58-63): set the pipeline to NULL, quit the loop if it is
running, then set `_done = True`. -/
def stopStep (st : SrcState) : SrcState :=
  { st with pipeline := PState.null, loopRunning := false, done := true }

/-- `_on_bus_message` on `Gst.MessageType.EOS` (lines 72-75): set
`_done = True`, then call `stop`. -/
def busEOSStep (st : SrcState) : SrcState :=
  stopStep { st with done := true }

/-- `_on_bus_message` on `Gst.MessageType.ERROR` (lines 77-81): log the
error, set `_done = True`, then call `stop`. -/
def busErrorStep (st : SrcState) : SrcState :=
  stopStep { st with done := true }

/-- `_on_new_sample` as a state transition: the queue is updated as in
`onNewSample`; no other field is read or written (in particular `_done` is
never consulted). -/
def newSampleStep (s : RawSample) (st : SrcState) : SrcState × Flow :=
  let r := onNewSample st.maxsize st.queue s
  ({ st with queue := r.1 }, r.2)

/-- `get_frame_blocking` (lines 151-157): `self._queue.get()` with no timeout
and no close/sentinel protocol. `none` means the call finds the queue empty
and blocks: the code has no other way out of an empty `get`. -/
def getFrameBlocking (st : SrcState) : Option (List Nat × SrcState) :=
  match st.queue with
  | [] => none
  | f :: rest => some (f, { st with queue := rest })

/-- One externally observable event on a source instance. -/
inductive Event
  | start
  | stop
  | busEOS
  | busError
  | newSample (s : RawSample)
  | pop
deriving DecidableEq

/-- The state transition of each event; a `pop` that finds the queue empty
blocks, leaving the state unchanged. -/
def applyEvent (e : Event) (st : SrcState) : SrcState :=
  match e with
  | Event.start => startStep st
  | Event.stop => stopStep st
  | Event.busEOS => busEOSStep st
  | Event.busError => busErrorStep st
  | Event.newSample s => (newSampleStep s st).1
  | Event.pop =>
    match getFrameBlocking st with
    | none => st
    | some r => r.2

/-- How many times the code assigns `self._done` while handling one event:
`stop` assigns it once (line 63); the EOS and ERROR bus branches assign it
(lines 74, 80) and then call `stop`, which assigns it again. -/
def doneWrites : Event → Nat
  | Event.start => 0
  | Event.stop => 1
  | Event.busEOS => 2
  | Event.busError => 2
  | Event.newSample _ => 0
  | Event.pop => 0

/-- Run a sequence of events from a given state. -/
def runEvents (st : SrcState) (es : List Event) : SrcState :=
  es.foldl (fun acc e => applyEvent e acc) st

/-- Total number of assignments to `self._done` over a run. -/
def totalDoneWrites (es : List Event) : Nat :=
  (es.map doneWrites).sum

/-- `done` is never reset: every event preserves a true `_done` flag. -/
lemma applyEvent_done_mono (e : Event) (st : SrcState) (h : st.done = true) :
    (applyEvent e st).done = true := by
  cases e with
  | start => exact h
  | stop => rfl
  | busEOS => rfl
  | busError => rfl
  | newSample s => exact h
  | pop =>
    unfold applyEvent getFrameBlocking
    cases st.queue with
    | nil => exact h
    | cons f rest => exact h

end GStreamerSource

namespace GStreamerSource

/-- C6 (observed behaviour at the failing input): after `stop()` on a source
whose queue is empty, `done` is set and `stop` is idempotent, but the queue
has not been closed: `get_frame_blocking` finds it empty and blocks
(`none`) — the model has no end-of-data outcome, because
`queue.Queue.get()` with no close or sentinel never returns without a frame,
contradicting the docstring claim that `queue.Empty` is raised after
`stop()` with an empty queue. -/
theorem stop_leaves_pop_blocking :
    (stopStep (initState 10)).done = true ∧
      stopStep (stopStep (initState 10)) = stopStep (initState 10) ∧
      (stopStep (initState 10)).queue = [] ∧
      getFrameBlocking (stopStep (initState 10)) = none :=
  ⟨rfl, rfl, rfl, rfl⟩

/-- C7 counterexample: with `done` already true (state after `stop()`), a new
sample delivered to `_on_new_sample` is still unpacked and enqueued — the
handler never consults `_done`, so the queue changes after the Stopped state
was entered. -/
theorem newSample_after_done_enqueues :
    (stopStep (initState 10)).done = true ∧
      (applyEvent (Event.newSample ⟨1, 1, some 3, [7, 8, 9]⟩)
          (stopStep (initState 10))).queue = [[7, 8, 9]] :=
  ⟨rfl, rfl⟩

/-- C7 amended: once `done` is true it stays true under every event, and the
lifecycle operations (`start`, `stop`, the EOS handler, the error handler)
never add a frame to the queue; only a new-sample callback can, and it does
so without consulting `done`. -/
theorem stopped_terminal_amended (e : Event) (st : SrcState) :
    (st.done = true → (applyEvent e st).done = true) ∧
      (e = Event.start ∨ e = Event.stop ∨ e = Event.busEOS ∨ e = Event.busError →
        (applyEvent e st).queue = st.queue) := by
  refine ⟨applyEvent_done_mono e st, ?_⟩
  intro hc
  cases e with
  | start => rfl
  | stop => rfl
  | busEOS => rfl
  | busError => rfl
  | newSample s => rcases hc with h | h | h | h <;> exact absurd h (by simp)
  | pop => rcases hc with h | h | h | h <;> exact absurd h (by simp)

/-- Witness for the amended C7: a `stop` on an already-stopped source keeps
`done` true and leaves the queue untouched. -/
theorem stopped_terminal_amended_witness :
    (applyEvent Event.stop (stopStep (initState 10))).done = true ∧
      (applyEvent Event.stop (stopStep (initState 10))).queue =
        (stopStep (initState 10)).queue :=
  ⟨(stopped_terminal_amended Event.stop (stopStep (initState 10))).1 rfl,
   (stopped_terminal_amended Event.stop (stopStep (initState 10))).2
     (Or.inr (Or.inl rfl))⟩

/-- C8 counterexample: the run `start; EOS` terminates with `done = true`,
but `self._done` is assigned twice along the way — once in the EOS branch of
`_on_bus_message` (line 74) and once more inside the `stop()` it calls
(line 63) — refuting "written exactly once per run". -/
theorem eos_run_writes_done_twice :
    (runEvents (initState 10) [Event.start, Event.busEOS]).done = true ∧
      totalDoneWrites [Event.start, Event.busEOS] = 2 :=
  ⟨rfl, rfl⟩

/-- C8 amended: `_done` is false at construction, no event ever resets it to
false once true, and every assignment to it stores `true` (so the observable
false-to-true transition happens at most once), but it may be assigned more
than once per run. -/
theorem done_flag_monotone (queue_size : Nat) (e : Event) (st : SrcState) :
    (initState queue_size).done = false ∧
      (st.done = true → (applyEvent e st).done = true) ∧
      (0 < doneWrites e → (applyEvent e st).done = true) := by
  refine ⟨rfl, applyEvent_done_mono e st, ?_⟩
  intro hw
  cases e with
  | start => exact absurd hw (by simp [doneWrites])
  | stop => rfl
  | busEOS => rfl
  | busError => rfl
  | newSample s => exact absurd hw (by simp [doneWrites])
  | pop => exact absurd hw (by simp [doneWrites])

/-- Witness for the amended C8 at a `stop` event on a stopped state. -/
theorem done_flag_monotone_witness :
    (initState 10).done = false ∧
      (applyEvent Event.stop (stopStep (initState 10))).done = true :=
  ⟨(done_flag_monotone 10 Event.stop (stopStep (initState 10))).1,
   (done_flag_monotone 10 Event.stop (stopStep (initState 10))).2.2 (by decide)⟩

/-- C9: after the EOS bus handler runs, `done` is true, and a subsequent
`stop()` is a no-op: it returns (the model is a total function, mirroring
that lines 58-63 run no raising operation), leaves the pipeline at NULL
rather than re-entering PLAYING, and keeps `done` true. -/
theorem stop_safe_after_eos (st : SrcState) :
    (busEOSStep st).done = true ∧
      stopStep (busEOSStep st) = busEOSStep st ∧
      (stopStep (busEOSStep st)).pipeline = PState.null ∧
      (stopStep (busEOSStep st)).done = true :=
  ⟨rfl, rfl, rfl, rfl⟩

/-- C10: on the no-video-meta fallback path, `row_stride` is inferred as
`bufferSize // height`, so `row_stride * height ≤ bufferSize` always holds
and the short-buffer branch `data.size < row_stride * height` can never be
taken; when `height` does not divide the buffer size, the inferred stride
strictly under-estimates (trailing bytes are silently ignored) and, provided
`width*3` fits in the inferred stride, the sample is accepted. -/
theorem fallback_stride_safe (w h : Nat) (data : List Nat) (_hpos : 0 < h) :
    effectiveStride ⟨w, h, none, data⟩ * h ≤ data.length ∧
      ¬ (data.length < effectiveStride ⟨w, h, none, data⟩ * h) ∧
      (¬ (h ∣ data.length) → effectiveStride ⟨w, h, none, data⟩ * h < data.length) ∧
      (w * 3 ≤ effectiveStride ⟨w, h, none, data⟩ →
        ∃ frame,
          unpackSample w h (effectiveStride ⟨w, h, none, data⟩) data = some frame) := by
  have hstride : effectiveStride ⟨w, h, none, data⟩ = data.length / h := rfl
  have hle : data.length / h * h ≤ data.length := Nat.div_mul_le_self _ _
  rw [hstride]
  refine ⟨hle, not_lt.mpr hle, ?_, ?_⟩
  · intro hdvd
    refine Nat.lt_of_le_of_ne hle (fun heq => hdvd ?_)
    exact ⟨data.length / h, heq.symm.trans (Nat.mul_comm _ _)⟩
  · intro hw
    exact ⟨_, unpackSample_eq_rows w h (data.length / h) data hle hw⟩

/-- Witness for C10: `width=1, height=2` on a 7-byte buffer: the inferred
stride is 3, `3*2 = 6 < 7` (one byte silently ignored), the short-buffer
branch is unreachable and unpacking succeeds. -/
theorem fallback_stride_safe_witness :
    effectiveStride ⟨1, 2, none, List.range 7⟩ * 2 ≤ (List.range 7).length ∧
      effectiveStride ⟨1, 2, none, List.range 7⟩ * 2 < (List.range 7).length ∧
      ∃ frame,
        unpackSample 1 2 (effectiveStride ⟨1, 2, none, List.range 7⟩)
          (List.range 7) = some frame := by
  have h := fallback_stride_safe 1 2 (List.range 7) (by norm_num)
  exact ⟨h.1, h.2.2.1 (by decide), h.2.2.2 (by decide)⟩

end GStreamerSource
